import Mathlib

/-!
# Verification of the people-memorizer training core

A shallow embedding of the training core of the `people-memorizer`
repository, together with theorems settling the specification claims.

Strings from the JavaScript side are modelled as `List Char`; record ids
(produced by `generateId`, i.e. by draws from `Math.random`) are modelled
by an explicit id supply `ids : Nat → String`, the k-th call of
`generateId` returning `ids k`.  Real-valued quantities (timestamps,
weights, random draws, accuracy percentages) are modelled as rationals.
-/

namespace PeopleMemorizer

/-! ## Basic string utilities (modelling JS `split` / `trim`) -/

/-- Split a character list at every character satisfying `p`, keeping the
(possibly empty) pieces between separators.  `splitBy p` models JS
`String.prototype.split`: splitting the empty string yields one empty
piece, and `n` separators yield `n + 1` pieces. -/
def splitBy (p : Char → Bool) : List Char → List (List Char)
  | [] => [[]]
  | c :: rest =>
    if p c then [] :: splitBy p rest
    else
      match splitBy p rest with
      | [] => [[c]]
      | h :: t => (c :: h) :: t

/-- JS `String.prototype.trim`: drop whitespace from both ends. -/
def trim (s : List Char) : List Char :=
  (((s.dropWhile Char.isWhitespace).reverse.dropWhile Char.isWhitespace).reverse)

/-- `line.split(/\s+/).filter((s) => s.length > 0)`: the non-empty pieces
obtained by splitting on whitespace.  (Splitting on every single
whitespace character and discarding empty pieces agrees with splitting on
maximal whitespace runs.) -/
def tokens (s : List Char) : List (List Char) :=
  (splitBy Char.isWhitespace s).filter (fun t => !t.isEmpty)

/-! ## Data model (src/types/index.ts) -/

/-- `Person` from `src/types/index.ts`. -/
structure Person where
  id : String
  name : List Char
  parents : List (List Char)
  siblings : List (List Char)
  deriving DecidableEq, Repr

/-- The `error` payload of a failed parse. -/
structure ParseFailure where
  message : String
  remainderLines : List (List Char)
  deriving DecidableEq, Repr

/-- `ParseResult` from `src/types/index.ts`: tagged success/failure. -/
inductive ParseResult where
  | failure (e : ParseFailure)
  | success (people : List Person)
  deriving DecidableEq, Repr

/-! ## The parser (src/utils/parser.ts, `parsePeopleText`) -/

/-- Error message for empty input (parser.ts line 29). -/
def emptyInputMessage : String :=
  "הטקסט ריק. יש להזין לפחות אדם אחד."

/-- Error message for remainder 1 (parser.ts line 42); `n` is the
non-empty line count interpolated into the template literal. -/
def remainderOneMessage (n : Nat) : String :=
  "שגיאה בפורמט: נותרה שורה אחת לא שלמה (חסרות שורות הורים ואחים). סך הכל " ++
    toString n ++ " שורות שאינן ריקות - לא מתחלק ב-3."

/-- Error message for remainder ≠ 1 (parser.ts line 44); `r` is the
remainder and `n` the non-empty line count. -/
def remainderTwoMessage (r n : Nat) : String :=
  "שגיאה בפורמט: נותרו " ++ toString r ++
    " שורות לא שלמות (חסרה שורת אחים). סך הכל " ++ toString n ++
    " שורות שאינן ריקות - לא מתחלק ב-3."

/-- Lines 20–23 of parser.ts: split on `'\n'`, trim each line, keep the
non-empty ones. -/
def nonEmptyLines (text : List Char) : List (List Char) :=
  (((splitBy (fun c => c == '\n') text).map trim).filter (fun l => !l.isEmpty))

/-- The loop of parser.ts lines 56–72: walk the non-empty lines in
consecutive triples, building one `Person` per triple; `k` is the index of
the next `generateId` call. -/
def buildPeople (ids : Nat → String) : Nat → List (List Char) → List Person
  | k, name :: parentsLine :: siblingsLine :: rest =>
    { id := ids k, name := name,
      parents := tokens parentsLine,
      siblings := tokens siblingsLine } :: buildPeople ids (k + 1) rest
  | _, _ => []

/-- `parsePeopleText` (parser.ts lines 18–75), with the `generateId`
random source made explicit as `ids`. -/
def parsePeopleText (ids : Nat → String) (text : List Char) : ParseResult :=
  let lines := nonEmptyLines text
  if lines.length = 0 then
    .failure { message := emptyInputMessage, remainderLines := [] }
  else
    let remainder := lines.length % 3
    if remainder ≠ 0 then
      .failure
        { message :=
            if remainder = 1 then remainderOneMessage lines.length
            else remainderTwoMessage remainder lines.length,
          remainderLines := lines.drop (lines.length - remainder) }
    else
      .success (buildPeople ids 0 lines)

/-! ## Concrete demo inputs used by witnesses -/

/-- A demo id supply: the k-th `generateId` call returns the decimal
numeral for `k`. -/
def idsDemo : Nat → String := fun k => toString k

/-- Demo input with 6 non-empty lines (two valid blocks). -/
def demoTextOk : List Char := ("a\nb c\nd e\nf\ng h\ni").data

/-- Demo input whose lines are all blank after trimming. -/
def wsOnlyText : List Char := (" \n ").data

/-- Demo input with 4 non-empty lines (remainder 1). -/
def fourLineText : List Char := ("a\nb\nc\nd").data

/-! ## Structure lemmas about `buildPeople` -/

theorem buildPeople_length (ids : Nat → String) :
    ∀ (k : Nat) (ls : List (List Char)), (buildPeople ids k ls).length = ls.length / 3
  | _, [] => by simp [buildPeople]
  | _, [_] => by simp [buildPeople]
  | _, [_, _] => by simp [buildPeople]
  | k, a :: b :: c :: rest => by
    have ih := buildPeople_length ids (k + 1) rest
    simp [buildPeople, ih]
    omega

theorem buildPeople_getElem (ids : Nat → String) :
    ∀ (k i : Nat) (ls : List (List Char)) (p : Person),
      (buildPeople ids k ls)[i]? = some p →
      p.id = ids (k + i) ∧
      ∃ a b c, ls[3 * i]? = some a ∧ ls[3 * i + 1]? = some b ∧
        ls[3 * i + 2]? = some c ∧
        p.name = a ∧ p.parents = tokens b ∧ p.siblings = tokens c
  | _, i, [], p => by simp [buildPeople]
  | _, i, [_], p => by simp [buildPeople]
  | _, i, [_, _], p => by simp [buildPeople]
  | k, 0, a :: b :: c :: rest, p => by
    intro h
    simp only [buildPeople, List.getElem?_cons_zero, Option.some.injEq] at h
    subst h
    exact ⟨by simp, a, b, c, by simp, by simp, by simp, rfl, rfl, rfl⟩
  | k, i + 1, a :: b :: c :: rest, p => by
    intro h
    simp only [buildPeople, List.getElem?_cons_succ] at h
    obtain ⟨hid, x, y, z, hx, hy, hz, hn, hp, hs⟩ :=
      buildPeople_getElem ids (k + 1) i rest p h
    have e3 : 3 * (i + 1) = 3 * i + 1 + 1 + 1 := by ring
    refine ⟨by rw [hid]; congr 1; omega, x, y, z, ?_, ?_, ?_, hn, hp, hs⟩
    · rw [e3]; simpa using hx
    · rw [show 3 * (i + 1) + 1 = 3 * i + 1 + 1 + 1 + 1 by ring]; simpa using hy
    · rw [show 3 * (i + 1) + 2 = 3 * i + 2 + 1 + 1 + 1 by ring]; simpa using hz

/-- C1: on an input whose non-empty line count is a positive multiple of
3, `parsePeopleText` succeeds with one person per consecutive triple of
non-empty lines: the name is the (trimmed) first line of the triple
verbatim, parents/siblings are the whitespace-tokenizations of the second
and third lines, and output order follows input order. -/
theorem parse_success_structure (ids : Nat → String) (text : List Char)
    (h0 : 0 < (nonEmptyLines text).length)
    (h3 : (nonEmptyLines text).length % 3 = 0) :
    ∃ people, parsePeopleText ids text = ParseResult.success people ∧
      people.length = (nonEmptyLines text).length / 3 ∧
      ∀ i p, people[i]? = some p →
        p.id = ids i ∧
        ∃ a b c, (nonEmptyLines text)[3 * i]? = some a ∧
          (nonEmptyLines text)[3 * i + 1]? = some b ∧
          (nonEmptyLines text)[3 * i + 2]? = some c ∧
          p.name = a ∧ p.parents = tokens b ∧ p.siblings = tokens c := by
  refine ⟨buildPeople ids 0 (nonEmptyLines text), ?_, ?_, ?_⟩
  · unfold parsePeopleText
    simp only [h3]
    rw [if_neg (by omega), if_neg (by simp)]
  · exact buildPeople_length ids 0 (nonEmptyLines text)
  · intro i p hp
    have := buildPeople_getElem ids 0 i (nonEmptyLines text) p hp
    simpa using this

/-- Witness for C1 at the concrete input `"a\nb c\nd e\nf\ng h\ni"`. -/
theorem parse_success_structure_witness :
    (0 < (nonEmptyLines demoTextOk).length ∧
      (nonEmptyLines demoTextOk).length % 3 = 0) ∧
    (∃ people,
      parsePeopleText idsDemo demoTextOk = ParseResult.success people ∧
      people.length = (nonEmptyLines demoTextOk).length / 3 ∧
      ∀ i p, people[i]? = some p →
        p.id = idsDemo i ∧
        ∃ a b c, (nonEmptyLines demoTextOk)[3 * i]? = some a ∧
          (nonEmptyLines demoTextOk)[3 * i + 1]? = some b ∧
          (nonEmptyLines demoTextOk)[3 * i + 2]? = some c ∧
          p.name = a ∧ p.parents = tokens b ∧ p.siblings = tokens c) :=
  ⟨⟨by decide, by decide⟩,
    parse_success_structure idsDemo demoTextOk (by decide) (by decide)⟩

/-! ## Theorems for claim C2: failure characterization -/

/-- The remainder-1 and remainder-2 failure messages are distinct for
every non-empty line count: their fixed parts differ in length. -/
theorem remainderMessages_distinct (n : Nat) :
    remainderOneMessage n ≠ remainderTwoMessage 2 n := by
  intro h
  have hlen := congrArg String.length h
  rw [remainderOneMessage, remainderTwoMessage] at hlen
  simp only [String.length_append] at hlen
  have e1 :
      ("שגיאה בפורמט: נותרה שורה אחת לא שלמה (חסרות שורות הורים ואחים). סך הכל " :
        String).length = 71 := rfl
  have e2 : (" שורות שאינן ריקות - לא מתחלק ב-3." : String).length = 34 := rfl
  have e3 : ("שגיאה בפורמט: נותרו " : String).length = 20 := rfl
  have e4 : (" שורות לא שלמות (חסרה שורת אחים). סך הכל " : String).length = 41 := rfl
  have e5 : (toString (2 : Nat) : String).length = 1 := rfl
  omega

/-- C2: `parsePeopleText` fails in exactly two cases.  With zero
non-empty lines it fails with the empty-input message and no remainder
lines; with a line count not divisible by 3 it fails with
`remainderLines` equal to the trailing `count % 3` non-empty lines
(remainders 1 and 2 selecting the two distinct message templates); in
every other case it succeeds. -/
theorem parse_failure_characterization (ids : Nat → String) (text : List Char) :
    ((nonEmptyLines text).length = 0 →
      parsePeopleText ids text =
        ParseResult.failure { message := emptyInputMessage, remainderLines := [] }) ∧
    ((nonEmptyLines text).length % 3 ≠ 0 →
      parsePeopleText ids text =
        ParseResult.failure
          { message :=
              if (nonEmptyLines text).length % 3 = 1 then
                remainderOneMessage (nonEmptyLines text).length
              else
                remainderTwoMessage ((nonEmptyLines text).length % 3)
                  (nonEmptyLines text).length,
            remainderLines :=
              (nonEmptyLines text).drop
                ((nonEmptyLines text).length - (nonEmptyLines text).length % 3) } ∧
      ((nonEmptyLines text).drop
          ((nonEmptyLines text).length - (nonEmptyLines text).length % 3)).length =
        (nonEmptyLines text).length % 3 ∧
      (nonEmptyLines text).take
          ((nonEmptyLines text).length - (nonEmptyLines text).length % 3) ++
        (nonEmptyLines text).drop
          ((nonEmptyLines text).length - (nonEmptyLines text).length % 3) =
        nonEmptyLines text) ∧
    (0 < (nonEmptyLines text).length → (nonEmptyLines text).length % 3 = 0 →
      ∃ people, parsePeopleText ids text = ParseResult.success people) ∧
    (∀ n, remainderOneMessage n ≠ remainderTwoMessage 2 n) := by
  refine ⟨?_, ?_, ?_, remainderMessages_distinct⟩
  · intro h
    unfold parsePeopleText
    rw [if_pos h]
  · intro h
    have h0 : (nonEmptyLines text).length ≠ 0 := by
      intro hz; rw [hz] at h; simp at h
    refine ⟨?_, ?_, List.take_append_drop _ _⟩
    · unfold parsePeopleText
      rw [if_neg h0, if_pos h]
    · rw [List.length_drop]
      have := Nat.mod_le (nonEmptyLines text).length 3
      have := Nat.mod_lt (nonEmptyLines text).length (show 0 < 3 by omega)
      omega
  · intro h0 h3
    refine ⟨buildPeople ids 0 (nonEmptyLines text), ?_⟩
    unfold parsePeopleText
    rw [if_neg (by omega)]
    simp only [h3]
    rw [if_neg (by simp)]

/-- Witness for C2: the empty-input failure, the remainder-1 failure and
the success case, at concrete inputs. -/
theorem parse_failure_characterization_witness :
    ((nonEmptyLines wsOnlyText).length = 0 ∧
      parsePeopleText idsDemo wsOnlyText =
        ParseResult.failure { message := emptyInputMessage, remainderLines := [] }) ∧
    ((nonEmptyLines fourLineText).length % 3 ≠ 0 ∧
      parsePeopleText idsDemo fourLineText =
        ParseResult.failure
          { message :=
              if (nonEmptyLines fourLineText).length % 3 = 1 then
                remainderOneMessage (nonEmptyLines fourLineText).length
              else
                remainderTwoMessage ((nonEmptyLines fourLineText).length % 3)
                  (nonEmptyLines fourLineText).length,
            remainderLines :=
              (nonEmptyLines fourLineText).drop
                ((nonEmptyLines fourLineText).length -
                  (nonEmptyLines fourLineText).length % 3) }) ∧
    (0 < (nonEmptyLines demoTextOk).length ∧
      (nonEmptyLines demoTextOk).length % 3 = 0 ∧
      ∃ people, parsePeopleText idsDemo demoTextOk = ParseResult.success people) :=
  ⟨⟨by decide, (parse_failure_characterization idsDemo wsOnlyText).1 (by decide)⟩,
   ⟨by decide,
    ((parse_failure_characterization idsDemo fourLineText).2.1 (by decide)).1⟩,
   ⟨by decide, by decide,
    (parse_failure_characterization idsDemo demoTextOk).2.2.1 (by decide) (by decide)⟩⟩

/-! ## Leitner spaced repetition (src/utils/training.ts) -/

/-- `LEITNER_BOXES = 3` (training.ts line 41). -/
def LEITNER_BOXES : Nat := 3

/-- `BOX_WEIGHTS = [5, 2, 1]` (training.ts line 42). -/
def boxWeights : List ℚ := [5, 2, 1]

/-- `LeitnerCard` from `src/types/index.ts`; `lastSeen` is a millisecond
timestamp modelled as a rational. -/
structure LeitnerCard where
  personId : String
  box : Nat
  lastSeen : ℚ
  correctStreak : Nat
  deriving DecidableEq, Repr

/-- `updateLeitnerCard` (training.ts lines 103–122); `now` models the
`Date.now()` call. -/
def updateLeitnerCard (card : LeitnerCard) (correct : Bool) (now : ℚ) : LeitnerCard :=
  if correct then
    { card with
        box := min (card.box + 1) (LEITNER_BOXES - 1)
        lastSeen := now
        correctStreak := card.correctStreak + 1 }
  else
    { card with box := 0, lastSeen := now, correctStreak := 0 }

/-- The weight of one candidate (training.ts lines 80–87).  When the
person has no card, the JS code computes
`Math.min(Infinity / 60000, 10) = 10` for the recency bonus. -/
def personWeight (cards : String → Option LeitnerCard) (now : ℚ) (p : Person) : ℚ :=
  match cards p.id with
  | some card =>
      boxWeights.getD (min card.box (LEITNER_BOXES - 1)) 0 +
        min ((now - card.lastSeen) / 60000) 10
  | none => boxWeights.getD 0 0 + 10

/-- The weighted-selection loop (training.ts lines 91–95): subtract each
weight from the running remainder, returning the candidate at which the
remainder drops to 0 or below; `none` when the list is exhausted. -/
def selectLoop : ℚ → List (Person × ℚ) → Option Person
  | _, [] => none
  | rand, (p, w) :: rest => if rand - w ≤ 0 then some p else selectLoop (rand - w) rest

/-- `people.filter((p) => p.id !== lastPersonId)` (training.ts line 76). -/
def candidatesOf (people : List Person) (lastPersonId : Option String) : List Person :=
  people.filter (fun p => some p.id ≠ lastPersonId)

/-- `selectNextPerson` (training.ts lines 71–97).  `now` models
`Date.now()`, `rand` the draw `Math.random() * totalWeight`; the JS
function would return `undefined` on an empty roster, hence `Option`. -/
def selectNextPerson (people : List Person) (cards : String → Option LeitnerCard)
    (lastPersonId : Option String) (now rand : ℚ) : Option Person :=
  let candidates := candidatesOf people lastPersonId
  if candidates.length = 0 then people[0]?
  else
    match selectLoop rand (candidates.map (fun p => (p, personWeight cards now p))) with
    | some p => some p
    | none => candidates[0]?

/-! ## Theorems for claim C3: `updateLeitnerCard` -/

/-- C3: a correct answer promotes the box by one, capped at 2, and
increments the streak; an incorrect answer resets box and streak to 0;
five consecutive correct updates from box 0 end at box exactly 2; and the
box stays in `{0, 1, 2}`. -/
theorem updateCard_spec :
    (∀ card now, updateLeitnerCard card true now =
      { card with
          box := min (card.box + 1) 2
          lastSeen := now
          correctStreak := card.correctStreak + 1 }) ∧
    (∀ card now, updateLeitnerCard card false now =
      { card with box := 0, lastSeen := now, correctStreak := 0 }) ∧
    (∀ card n1 n2 n3 n4 n5, card.box = 0 →
      (updateLeitnerCard (updateLeitnerCard (updateLeitnerCard (updateLeitnerCard
        (updateLeitnerCard card true n1) true n2) true n3) true n4) true n5).box = 2) ∧
    (∀ card correct now, (card.box = 0 ∨ card.box = 1 ∨ card.box = 2) →
      ((updateLeitnerCard card correct now).box = 0 ∨
        (updateLeitnerCard card correct now).box = 1 ∨
        (updateLeitnerCard card correct now).box = 2)) := by
  refine ⟨fun card now => rfl, fun card now => rfl, ?_, ?_⟩
  · intro card n1 n2 n3 n4 n5 h
    simp [updateLeitnerCard, LEITNER_BOXES, h]
  · intro card correct now _
    cases correct
    · simp [updateLeitnerCard]
    · simp only [updateLeitnerCard, LEITNER_BOXES, if_true]
      omega

/-- Witness for C3 at the all-zero card. -/
theorem updateCard_spec_witness :
    ((⟨"p", 0, 0, 0⟩ : LeitnerCard).box = 0 ∧
      (updateLeitnerCard (updateLeitnerCard (updateLeitnerCard (updateLeitnerCard
        (updateLeitnerCard (⟨"p", 0, 0, 0⟩ : LeitnerCard) true 1) true 2) true 3)
          true 4) true 5).box = 2) ∧
    (((⟨"p", 0, 0, 0⟩ : LeitnerCard).box = 0 ∨ (⟨"p", 0, 0, 0⟩ : LeitnerCard).box = 1 ∨
        (⟨"p", 0, 0, 0⟩ : LeitnerCard).box = 2) ∧
      ((updateLeitnerCard (⟨"p", 0, 0, 0⟩ : LeitnerCard) false 7).box = 0 ∨
        (updateLeitnerCard (⟨"p", 0, 0, 0⟩ : LeitnerCard) false 7).box = 1 ∨
        (updateLeitnerCard (⟨"p", 0, 0, 0⟩ : LeitnerCard) false 7).box = 2)) :=
  ⟨⟨rfl, updateCard_spec.2.2.1 ⟨"p", 0, 0, 0⟩ 1 2 3 4 5 rfl⟩,
   ⟨Or.inl rfl, updateCard_spec.2.2.2 ⟨"p", 0, 0, 0⟩ false 7 (Or.inl rfl)⟩⟩

/-! ## Theorems for claim C4: `selectNextPerson` -/

theorem selectLoop_mem :
    ∀ (rand : ℚ) (ws : List (Person × ℚ)) (p : Person),
      selectLoop rand ws = some p → ∃ w, (p, w) ∈ ws
  | _, [], p => by simp [selectLoop]
  | rand, (q, w) :: rest, p => by
    intro h
    simp only [selectLoop] at h
    split at h
    · exact ⟨w, by simp_all⟩
    · obtain ⟨w', hw⟩ := selectLoop_mem (rand - w) rest p h
      exact ⟨w', List.mem_cons_of_mem _ hw⟩

/-- C4: with a roster of at least 2 people with pairwise distinct ids,
`selectNextPerson` returns a person different from the excluded id, for
every card mapping, timestamp and random draw; with a singleton roster it
always returns that person, even when its id is the excluded one. -/
theorem selectNext_spec :
    (∀ (people : List Person) (cards : String → Option LeitnerCard)
        (excl : String) (now rand : ℚ),
      2 ≤ people.length → people.Pairwise (fun a b => a.id ≠ b.id) →
      ∃ p, selectNextPerson people cards (some excl) now rand = some p ∧
        p.id ≠ excl) ∧
    (∀ (p : Person) (cards : String → Option LeitnerCard)
        (excl : Option String) (now rand : ℚ),
      selectNextPerson [p] cards excl now rand = some p) := by
  constructor
  · intro people cards excl now rand hlen hpw
    obtain ⟨q, hq_mem, hq_ne⟩ : ∃ q ∈ people, q.id ≠ excl := by
      match people, hlen, hpw with
      | p₀ :: p₁ :: rest, _, hpw =>
        have h01 : p₀.id ≠ p₁.id := (List.pairwise_cons.mp hpw).1 p₁ (by simp)
        by_cases h : p₀.id = excl
        · exact ⟨p₁, by simp, fun e => h01 (h.trans e.symm)⟩
        · exact ⟨p₀, by simp, h⟩
    have hq_cand : q ∈ candidatesOf people (some excl) := by
      simp only [candidatesOf, List.mem_filter, decide_eq_true_eq]
      exact ⟨hq_mem, by simpa using hq_ne⟩
    have hne : candidatesOf people (some excl) ≠ [] := by
      intro h; rw [h] at hq_cand; simp at hq_cand
    have hmem_prop : ∀ r ∈ candidatesOf people (some excl), r.id ≠ excl := by
      intro r hr
      have := (List.mem_filter.mp hr).2
      simpa using this
    unfold selectNextPerson
    rw [if_neg (by simpa [List.length_eq_zero] using hne)]
    cases hsel : selectLoop rand
        ((candidatesOf people (some excl)).map fun p => (p, personWeight cards now p)) with
    | some p =>
      refine ⟨p, rfl, ?_⟩
      obtain ⟨w, hw⟩ := selectLoop_mem _ _ _ hsel
      obtain ⟨r, hr_mem, hr_eq⟩ := List.mem_map.mp hw
      have : r = p := congrArg Prod.fst hr_eq
      exact this ▸ hmem_prop _ hr_mem
    | none =>
      match hc : candidatesOf people (some excl), hne with
      | c0 :: cs, _ =>
        refine ⟨c0, by simp, hmem_prop c0 (by rw [hc]; simp)⟩
  · intro p cards excl now rand
    by_cases h : some p.id ≠ excl
    · have hc : candidatesOf [p] excl = [p] := by
        simp [candidatesOf, List.filter, h]
      unfold selectNextPerson
      rw [hc]
      rw [if_neg (by simp)]
      rcases le_or_lt (rand - personWeight cards now p) 0 with hle | hlt
      · simp [selectLoop, hle]
      · simp [selectLoop, not_le.mpr hlt]
    · push_neg at h
      have hc : candidatesOf [p] excl = [] := by
        simp [candidatesOf, List.filter, h]
      unfold selectNextPerson
      rw [hc]
      simp

/-- Witness persons for the selector claims. -/
def wPersonA : Person := ⟨"a", ['a'], [['x']], [['y']]⟩

/-- Second witness person. -/
def wPersonB : Person := ⟨"b", ['b'], [['x']], [['y']]⟩

/-- Witness for C4: a two-person roster excluding id `"a"`, and the
singleton roster whose only person is excluded. -/
theorem selectNext_spec_witness :
    (2 ≤ ([wPersonA, wPersonB] : List Person).length ∧
      List.Pairwise (fun a b : Person => a.id ≠ b.id) [wPersonA, wPersonB] ∧
      ∃ p, selectNextPerson [wPersonA, wPersonB] (fun _ => none) (some "a") 0 0 =
          some p ∧ p.id ≠ "a") ∧
    selectNextPerson [wPersonA] (fun _ => none) (some "a") 0 0 = some wPersonA :=
  ⟨⟨by decide, by decide,
    selectNext_spec.1 [wPersonA, wPersonB] (fun _ => none) "a" 0 0 (by decide)
      (by decide)⟩,
   selectNext_spec.2 wPersonA (fun _ => none) (some "a") 0 0⟩

/-! ## Matching rounds (training.ts lines 317–343) -/

/-- `RelationType` from `src/types/index.ts`. -/
inductive RelationType where
  | parents
  | siblings
  | name
  deriving DecidableEq, Repr

/-- One `name → answer` pair of a matching round. -/
structure MatchPair where
  personId : String
  name : List Char
  answer : List Char
  deriving DecidableEq, Repr

/-- `MatchingRound` from `src/types/index.ts` (the `type` tag is implied
by the Lean type). -/
structure MatchingRound where
  pairs : List MatchPair
  relation : RelationType
  deriving DecidableEq, Repr

/-- `Array.prototype.join(', ')`. -/
def joinComma (xs : List (List Char)) : List Char :=
  List.intercalate [',', ' '] xs

/-- The fixed no-siblings answer literal. -/
def noSiblingsText : List Char := ("אין אחים").data

/-- The selection loop of `generateMatchingRound` (training.ts lines
325–332).  The JS `for` loop re-evaluates its bound
`Math.min(4, remaining.length)` on every iteration while `remaining`
shrinks, which this definition reproduces.  `rands i` models the
`Math.random()` draw of iteration `i`.  The guard enforces `i < 4` and
`i` starts at 0, so a fuel of 4 makes the recursion exact. -/
def selectPeopleLoop (cards : String → Option LeitnerCard) (now : ℚ)
    (rands : Nat → ℚ) :
    Nat → Nat → List Person → List Person → List Person
  | 0, _, selected, _ => selected
  | fuel + 1, i, selected, remaining =>
    if i < min 4 remaining.length then
      match selectNextPerson remaining cards (selected.getLast?.map Person.id) now
          (rands i) with
      | some person =>
          selectPeopleLoop cards now rands fuel (i + 1) (selected ++ [person])
            (remaining.eraseP (fun p => p.id == person.id))
      | none => selected   -- unreachable: `remaining` is non-empty under the guard
    else selected

/-- `generateMatchingRound` (training.ts lines 317–343).  `askParents`
models the `Math.random() > 0.5` draw picking the relation. -/
def generateMatchingRound (people : List Person)
    (cards : String → Option LeitnerCard) (askParents : Bool) (now : ℚ)
    (rands : Nat → ℚ) : MatchingRound :=
  let selected := selectPeopleLoop cards now rands 4 0 [] people
  { pairs := selected.map fun p =>
      { personId := p.id, name := p.name,
        answer :=
          if askParents then joinComma p.parents
          else if 0 < p.siblings.length then joinComma p.siblings
          else noSiblingsText }
    relation := if askParents then .parents else .siblings }

/-- Third witness person. -/
def wPersonC : Person := ⟨"c", ['c'], [['x']], [['y']]⟩

/-- Fourth witness person. -/
def wPersonD : Person := ⟨"d", ['d'], [['x']], [['y']]⟩

/-- C5 (evaluation at the failing input): on a 4-person roster the
matching round emits only 2 pairs, not `min 4 4 = 4`: after each pick the
roster copy shrinks, and the loop bound `Math.min(4, remaining.length)`
is re-evaluated against the shrunken list, stopping the loop early. -/
theorem matchingRound_four_people_two_pairs :
    (generateMatchingRound [wPersonA, wPersonB, wPersonC, wPersonD]
        (fun _ => none) true 0 (fun _ => 0)).pairs.length = 2 ∧
    min 4 ([wPersonA, wPersonB, wPersonC, wPersonD] : List Person).length = 4 := by
  constructor
  · norm_num [generateMatchingRound, selectPeopleLoop, selectNextPerson, candidatesOf,
      selectLoop, personWeight, boxWeights, wPersonA, wPersonB, wPersonC, wPersonD,
      List.eraseP, List.getLast?, joinComma]
  · decide

/-! ## Session statistics (src/components/TrainingScreen.tsx) -/

/-- `GameMode` from `src/types/index.ts`. -/
inductive GameMode where
  | flashcards
  | trueFalse
  | multipleChoice
  | matching
  | fillBlank
  | freeRecall
  | speedRound
  deriving DecidableEq, Repr

/-- `AnswerResult` from `src/types/index.ts`. -/
structure AnswerResult where
  personId : String
  correct : Bool
  userAnswer : List Char
  correctAnswer : List Char
  mode : GameMode
  timeMs : Option ℚ
  deriving DecidableEq, Repr

/-- `SessionStats` from `src/types/index.ts`. -/
structure SessionStats where
  correct : Nat
  wrong : Nat
  streak : Nat
  bestStreak : Nat
  total : Nat
  accuracy : ℚ
  results : List AnswerResult
  deriving DecidableEq, Repr

/-- `emptySessionStats` (TrainingScreen.tsx lines 39–49). -/
def emptySessionStats : SessionStats :=
  { correct := 0, wrong := 0, streak := 0, bestStreak := 0, total := 0,
    accuracy := 0, results := [] }

/-- The `setSessionStats` updater inside `handleAnswer`
(TrainingScreen.tsx lines 119–143). -/
def handleAnswerStats (prev : SessionStats) (result : AnswerResult) : SessionStats :=
  let newCorrect := prev.correct + (if result.correct then 1 else 0)
  let newWrong := prev.wrong + (if result.correct then 0 else 1)
  let newTotal := prev.total + 1
  let newStreak := if result.correct then prev.streak + 1 else 0
  { correct := newCorrect
    wrong := newWrong
    streak := newStreak
    bestStreak := max prev.bestStreak newStreak
    total := newTotal
    accuracy := if 0 < newTotal then ((newCorrect : ℚ) / (newTotal : ℚ)) * 100 else 0
    results := prev.results ++ [result] }

/-- A session's running stats: the answer stream folded from
`emptySessionStats`. -/
def runSession (results : List AnswerResult) : SessionStats :=
  results.foldl handleAnswerStats emptySessionStats

/-- `PersonStats` from `src/types/index.ts`. -/
structure PersonStats where
  personId : String
  name : List Char
  timesAsked : Nat
  timesCorrect : Nat
  accuracy : ℚ
  deriving DecidableEq, Repr

/-- `OverallStats` from `src/types/index.ts`; the two `Record`s are
modelled as lookup functions. -/
structure OverallStats where
  totalSessions : Nat
  totalQuestions : Nat
  totalCorrect : Nat
  personStats : String → Option PersonStats
  leitnerCards : String → Option LeitnerCard

/-- The per-result upsert in the loop of `finishSession`
(TrainingScreen.tsx lines 91–106). -/
def upsertPersonStats (people : List Person) (ps : String → Option PersonStats)
    (result : AnswerResult) : String → Option PersonStats :=
  let existing : PersonStats :=
    match ps result.personId with
    | some e => e
    | none =>
      { personId := result.personId
        name := ((people.find? (fun p => p.id == result.personId)).map Person.name).getD []
        timesAsked := 0
        timesCorrect := 0
        accuracy := 0 }
  let asked := existing.timesAsked + 1
  let corr := existing.timesCorrect + (if result.correct then 1 else 0)
  let updated : PersonStats :=
    { existing with
        timesAsked := asked
        timesCorrect := corr
        accuracy := if 0 < asked then ((corr : ℚ) / (asked : ℚ)) * 100 else 0 }
  fun pid => if pid = result.personId then some updated else ps pid

/-- `finishSession` (TrainingScreen.tsx lines 79–113); `cards` is the
component's `leitnerCards` state that gets snapshotted into the result. -/
def finishSession (people : List Person) (overall : OverallStats)
    (cards : String → Option LeitnerCard) (stats : SessionStats) : OverallStats :=
  { totalSessions := overall.totalSessions + 1
    totalQuestions := overall.totalQuestions + stats.total
    totalCorrect := overall.totalCorrect + stats.correct
    personStats := stats.results.foldl (upsertPersonStats people) overall.personStats
    leitnerCards := cards }

/-! ## Theorems for claim C7: split-independence of the session fold -/

/-- C7: folding `[r1]` and then `[r2, r3]` into an `OverallStats` yields
the same `totalQuestions`, `totalCorrect` and per-person stats as folding
`[r1, r2, r3]` in one session; only `totalSessions` differs (by one
extra session). -/
theorem sessionFold_split_independent (people : List Person)
    (overall : OverallStats) (cards : String → Option LeitnerCard)
    (r1 r2 r3 : AnswerResult) :
    (finishSession people (finishSession people overall cards (runSession [r1]))
        cards (runSession [r2, r3])).totalQuestions =
      (finishSession people overall cards (runSession [r1, r2, r3])).totalQuestions ∧
    (finishSession people (finishSession people overall cards (runSession [r1]))
        cards (runSession [r2, r3])).totalCorrect =
      (finishSession people overall cards (runSession [r1, r2, r3])).totalCorrect ∧
    (∀ pid,
      (finishSession people (finishSession people overall cards (runSession [r1]))
          cards (runSession [r2, r3])).personStats pid =
        (finishSession people overall cards (runSession [r1, r2, r3])).personStats
          pid) ∧
    (finishSession people (finishSession people overall cards (runSession [r1]))
        cards (runSession [r2, r3])).totalSessions =
      (finishSession people overall cards (runSession [r1, r2, r3])).totalSessions +
        1 := by
  refine ⟨?_, ?_, fun pid => rfl, rfl⟩
  · simp only [finishSession, runSession, List.foldl, handleAnswerStats,
      emptySessionStats]
    try omega
  · simp only [finishSession, runSession, List.foldl, handleAnswerStats,
      emptySessionStats]
    try omega

/-! ## Theorems for claim C9: session-stats invariants -/

/-- The length of the trailing all-correct run of an answer stream. -/
def trailingCorrect (rs : List AnswerResult) : Nat :=
  (rs.reverse.takeWhile (fun r => r.correct)).length

/-- C9: the session stats folded from any answer stream satisfy
`correct + wrong = total = length results`, the streak is the trailing
run of correct answers, `bestStreak` bounds it, and `accuracy` is
`100 * correct / total` (0 for the empty session). -/
theorem sessionStats_invariants (rs : List AnswerResult) :
    (runSession rs).correct + (runSession rs).wrong = (runSession rs).total ∧
    (runSession rs).total = rs.length ∧
    (runSession rs).results = rs ∧
    (runSession rs).streak = trailingCorrect rs ∧
    (runSession rs).streak ≤ (runSession rs).bestStreak ∧
    (runSession rs).accuracy =
      (if (runSession rs).total = 0 then 0
        else 100 * ((runSession rs).correct : ℚ) / ((runSession rs).total : ℚ)) := by
  induction rs using List.reverseRecOn with
  | nil => simp [runSession, emptySessionStats, trailingCorrect]
  | append_singleton rs r ih =>
    obtain ⟨ih1, ih2, ih3, ih4, ih5, ih6⟩ := ih
    have hfold : runSession (rs ++ [r]) = handleAnswerStats (runSession rs) r := by
      simp [runSession, List.foldl_append]
    have htrail : trailingCorrect (rs ++ [r]) =
        if r.correct then trailingCorrect rs + 1 else 0 := by
      simp only [trailingCorrect, List.reverse_append, List.reverse_cons,
        List.reverse_nil, List.nil_append, List.singleton_append,
        List.takeWhile_cons]
      cases hr : r.correct <;> simp [hr]
    rw [hfold, htrail]
    refine ⟨?_, ?_, ?_, ?_, ?_, ?_⟩
    · simp only [handleAnswerStats]
      cases hr : r.correct
      · simp only [hr, Bool.false_eq_true, if_false]
        omega
      · simp only [hr, if_true]
        omega
    · simp only [handleAnswerStats, List.length_append, List.length_cons,
        List.length_nil]
      omega
    · simp only [handleAnswerStats]
      rw [ih3]
    · simp only [handleAnswerStats]
      cases hr : r.correct <;> simp [hr, ih4]
    · simp only [handleAnswerStats]
      exact le_max_right _ _
    · simp only [handleAnswerStats]
      rw [if_pos (show 0 < (runSession rs).total + 1 by omega),
        if_neg (show ¬((runSession rs).total + 1 = 0) by omega)]
      ring

/-! ## Well-formedness of parsed fields (claims C6, C8, C10) -/

theorem splitBy_ne_nil (p : Char → Bool) : ∀ s : List Char, splitBy p s ≠ []
  | [] => by simp [splitBy]
  | ch :: rest => by
    cases hc : p ch
    · simp only [splitBy, hc, Bool.false_eq_true, if_false]
      cases h : splitBy p rest <;> simp
    · simp [splitBy, hc]

/-- Every piece produced by `splitBy p` contains no separator character. -/
theorem mem_splitBy_no_sep (p : Char → Bool) :
    ∀ (s t : List Char), t ∈ splitBy p s → ∀ c ∈ t, p c = false
  | [], t => by
    intro ht c hc
    simp only [splitBy, List.mem_singleton] at ht
    subst ht
    simp at hc
  | ch :: rest, t => by
    intro ht c hc
    cases hp : p ch with
    | true =>
      simp only [splitBy, hp, if_true] at ht
      rcases List.mem_cons.mp ht with h | h
      · subst h; simp at hc
      · exact mem_splitBy_no_sep p rest t h c hc
    | false =>
      simp only [splitBy, hp, Bool.false_eq_true, if_false] at ht
      cases hsp : splitBy p rest with
      | nil => exact absurd hsp (splitBy_ne_nil p rest)
      | cons hh tt =>
        simp only [hsp] at ht
        rcases List.mem_cons.mp ht with h | h
        · subst h
          rcases List.mem_cons.mp hc with h2 | h2
          · subst h2; exact hp
          · exact mem_splitBy_no_sep p rest hh (by rw [hsp]; simp) c h2
        · exact mem_splitBy_no_sep p rest t (by rw [hsp]; simp [h]) c hc

/-- Every token is non-empty and free of whitespace. -/
theorem tokens_no_ws (s : List Char) :
    ∀ t ∈ tokens s, t ≠ [] ∧ ∀ c ∈ t, c.isWhitespace = false := by
  intro t ht
  have h1 := List.mem_filter.mp ht
  refine ⟨by simpa using h1.2, mem_splitBy_no_sep _ s t h1.1⟩

/-- `tokens` yields nothing exactly on all-whitespace input. -/
theorem tokens_eq_nil_iff :
    ∀ s : List Char, tokens s = [] ↔ ∀ c ∈ s, c.isWhitespace = true
  | [] => by simp [tokens, splitBy]
  | ch :: rest => by
    cases hp : ch.isWhitespace with
    | true =>
      have ih := tokens_eq_nil_iff rest
      have hstep : tokens (ch :: rest) = tokens rest := by
        simp [tokens, splitBy, hp]
      rw [hstep, ih]
      constructor
      · intro h c hc
        rcases List.mem_cons.mp hc with h2 | h2
        · subst h2; exact hp
        · exact h c h2
      · intro h c hc
        exact h c (List.mem_cons_of_mem _ hc)
    | false =>
      cases hsp : splitBy Char.isWhitespace rest with
      | nil => exact absurd hsp (splitBy_ne_nil _ rest)
      | cons hh tt =>
        simp only [tokens, splitBy, hp, Bool.false_eq_true, if_false, hsp,
          List.filter_cons]
        constructor
        · intro h
          exfalso
          simp at h
        · intro h
          exfalso
          have := h ch (by simp)
          rw [hp] at this
          cases this

theorem dropWhile_head?_false (p : Char → Bool) :
    ∀ (l : List Char) (c : Char), (l.dropWhile p).head? = some c → p c = false
  | [], c => by simp [List.dropWhile]
  | x :: rest, c => by
    cases hp : p x with
    | true =>
      simp only [List.dropWhile, hp]
      exact dropWhile_head?_false p rest c
    | false =>
      simp only [List.dropWhile, hp, Bool.false_eq_true]
      intro h
      simp only [List.head?_cons, Option.some.injEq] at h
      subst h
      exact hp

/-- A trimmed line made only of whitespace is empty. -/
theorem trim_all_ws_eq_nil (s : List Char)
    (h : ∀ c ∈ trim s, c.isWhitespace = true) : trim s = [] := by
  by_contra hne
  have htrim : trim s =
      ((s.dropWhile Char.isWhitespace).reverse.dropWhile Char.isWhitespace).reverse :=
    rfl
  have hvne : (s.dropWhile Char.isWhitespace).reverse.dropWhile Char.isWhitespace ≠
      [] := by
    intro h0
    apply hne
    rw [htrim, h0, List.reverse_nil]
  obtain ⟨c, hc⟩ : ∃ c,
      ((s.dropWhile Char.isWhitespace).reverse.dropWhile Char.isWhitespace).head? =
        some c := by
    cases hv : (s.dropWhile Char.isWhitespace).reverse.dropWhile Char.isWhitespace
    · exact absurd hv hvne
    · exact ⟨_, rfl⟩
  have hpc := dropWhile_head?_false Char.isWhitespace _ c hc
  have hcv : c ∈ trim s := by
    rw [htrim]
    exact List.mem_reverse.mpr (List.mem_of_mem_head? hc)
  rw [h c hcv] at hpc
  cases hpc

/-- Every line kept by the parser is non-empty and tokenizes to a
non-empty list. -/
theorem mem_nonEmptyLines (text l : List Char) (h : l ∈ nonEmptyLines text) :
    l ≠ [] ∧ tokens l ≠ [] := by
  have h1 := List.mem_filter.mp h
  have hne : l ≠ [] := by simpa using h1.2
  obtain ⟨raw, _, hraw⟩ := List.mem_map.mp h1.1
  refine ⟨hne, ?_⟩
  intro htok
  have hall := (tokens_eq_nil_iff l).mp htok
  exact hne (hraw ▸ trim_all_ws_eq_nil raw (hraw ▸ hall))

theorem mem_buildPeople (ids : Nat → String) :
    ∀ (k : Nat) (ls : List (List Char)) (p : Person), p ∈ buildPeople ids k ls →
      ∃ a b c, a ∈ ls ∧ b ∈ ls ∧ c ∈ ls ∧
        p.name = a ∧ p.parents = tokens b ∧ p.siblings = tokens c
  | _, [], p => by simp [buildPeople]
  | _, [_], p => by simp [buildPeople]
  | _, [_, _], p => by simp [buildPeople]
  | k, a :: b :: c :: rest, p => by
    intro hp
    simp only [buildPeople] at hp
    rcases List.mem_cons.mp hp with h | h
    · subst h
      exact ⟨a, b, c, by simp, by simp, by simp, rfl, rfl, rfl⟩
    · obtain ⟨x, y, z, hx, hy, hz, h1, h2, h3⟩ :=
        mem_buildPeople ids (k + 1) rest p h
      exact ⟨x, y, z, by simp [hx], by simp [hy], by simp [hz], h1, h2, h3⟩

/-- A successful parse returns exactly the people built from the
non-empty lines. -/
theorem parse_success_eq_buildPeople (ids : Nat → String) (text : List Char)
    (people : List Person)
    (h : parsePeopleText ids text = ParseResult.success people) :
    people = buildPeople ids 0 (nonEmptyLines text) := by
  unfold parsePeopleText at h
  by_cases h0 : (nonEmptyLines text).length = 0
  · rw [if_pos h0] at h
    cases h
  · rw [if_neg h0] at h
    by_cases h3 : (nonEmptyLines text).length % 3 ≠ 0
    · rw [if_pos h3] at h
      cases h
    · rw [if_neg h3] at h
      cases h
      rfl

/-- Each parsed person's fields come from three lines kept by the
parser. -/
theorem parse_success_person_fields (ids : Nat → String) (text : List Char)
    (people : List Person)
    (h : parsePeopleText ids text = ParseResult.success people) :
    ∀ p ∈ people, ∃ a b c, a ∈ nonEmptyLines text ∧ b ∈ nonEmptyLines text ∧
      c ∈ nonEmptyLines text ∧
      p.name = a ∧ p.parents = tokens b ∧ p.siblings = tokens c := by
  intro p hp
  exact mem_buildPeople ids 0 (nonEmptyLines text) p
    (parse_success_eq_buildPeople ids text people h ▸ hp)

/-! ## Theorems for claim C10: parsed-person invariants -/

/-- C10: every person of a successful parse has a non-empty name,
non-empty parents and siblings lists, and every listed relative is a
non-empty whitespace-free token. -/
theorem parse_person_invariants (ids : Nat → String) (text : List Char)
    (people : List Person)
    (h : parsePeopleText ids text = ParseResult.success people) :
    ∀ p ∈ people, p.name ≠ [] ∧ p.parents ≠ [] ∧ p.siblings ≠ [] ∧
      (∀ t ∈ p.parents, t ≠ [] ∧ ∀ c ∈ t, c.isWhitespace = false) ∧
      (∀ t ∈ p.siblings, t ≠ [] ∧ ∀ c ∈ t, c.isWhitespace = false) := by
  intro p hp
  obtain ⟨a, b, c, ha, hb, hc, h1, h2, h3⟩ :=
    parse_success_person_fields ids text people h p hp
  refine ⟨h1 ▸ (mem_nonEmptyLines text a ha).1,
    h2 ▸ (mem_nonEmptyLines text b hb).2,
    h3 ▸ (mem_nonEmptyLines text c hc).2, ?_, ?_⟩
  · intro t ht
    exact tokens_no_ws b t (h2 ▸ ht)
  · intro t ht
    exact tokens_no_ws c t (h3 ▸ ht)

/-- The people parsed from `demoTextOk` with `idsDemo`. -/
def demoPeople : List Person :=
  [⟨"0", ['a'], [['b'], ['c']], [['d'], ['e']]⟩,
   ⟨"1", ['f'], [['g'], ['h']], [['i']]⟩]

/-- Witness for C10 at the demo input. -/
theorem parse_person_invariants_witness :
    parsePeopleText idsDemo demoTextOk = ParseResult.success demoPeople ∧
    (∀ p ∈ demoPeople, p.name ≠ [] ∧ p.parents ≠ [] ∧ p.siblings ≠ [] ∧
      (∀ t ∈ p.parents, t ≠ [] ∧ ∀ c ∈ t, c.isWhitespace = false) ∧
      (∀ t ∈ p.siblings, t ≠ [] ∧ ∀ c ∈ t, c.isWhitespace = false)) :=
  ⟨by decide, parse_person_invariants idsDemo demoTextOk demoPeople (by decide)⟩

/-! ## Theorems for claim C6: an empty third line never reaches a block -/

/-- C6 counterexample (negation of the claim): no input whatsoever — in
particular none whose block has an empty third line — parses to a person
with an empty siblings list, because empty lines are dropped before the
lines are grouped into triples. -/
theorem empty_siblings_unreachable :
    ¬ ∃ (ids : Nat → String) (text : List Char) (people : List Person) (p : Person),
        parsePeopleText ids text = ParseResult.success people ∧ p ∈ people ∧
          p.siblings = [] := by
  rintro ⟨ids, text, people, p, h, hp, hs⟩
  obtain ⟨a, b, c, ha, hb, hc, h1, h2, h3⟩ :=
    parse_success_person_fields ids text people h p hp
  exact (mem_nonEmptyLines text c hc).2 (h3 ▸ hs)

/-- C6 amended: an empty third line is discarded as a blank separator
before grouping, so a successful parse never returns a person whose
siblings list is empty. -/
theorem parse_siblings_nonempty (ids : Nat → String) (text : List Char)
    (people : List Person)
    (h : parsePeopleText ids text = ParseResult.success people) :
    ∀ p ∈ people, p.siblings ≠ [] := by
  intro p hp
  obtain ⟨a, b, c, ha, hb, hc, h1, h2, h3⟩ :=
    parse_success_person_fields ids text people h p hp
  exact h3 ▸ (mem_nonEmptyLines text c hc).2

/-- Witness for the amended C6 at the demo input. -/
theorem parse_siblings_nonempty_witness :
    parsePeopleText idsDemo demoTextOk = ParseResult.success demoPeople ∧
    ∀ p ∈ demoPeople, p.siblings ≠ [] :=
  ⟨by decide, parse_siblings_nonempty idsDemo demoTextOk demoPeople (by decide)⟩

/-! ## Theorems for claim C8: id distinctness -/

/-- An id supply on which `Math.random` repeated itself. -/
def collidingIds : Nat → String := fun _ => "x"

/-- Demo input with 6 non-empty lines and no blank separators. -/
def sixLineText : List Char := ("a\nb\nc\nd\ne\nf").data

/-- C8 counterexample: under the random outcome in which both
`generateId` calls return the same string, the parse succeeds and the
two people carry equal ids — distinctness does not hold for every
outcome of the random source. -/
theorem parse_ids_collision :
    ∃ people, parsePeopleText collidingIds sixLineText = ParseResult.success people ∧
      ¬ (people.map Person.id).Nodup := by
  refine ⟨[⟨"x", ['a'], [['b']], [['c']]⟩, ⟨"x", ['d'], [['e']], [['f']]⟩],
    by decide, by decide⟩

/-- C8 amended: whenever the id source yields pairwise-distinct strings
for the calls the parse makes, the returned people's ids are pairwise
distinct. -/
theorem parse_ids_distinct (ids : Nat → String) (text : List Char)
    (people : List Person)
    (h : parsePeopleText ids text = ParseResult.success people)
    (hids : ((List.range people.length).map ids).Nodup) :
    (people.map Person.id).Nodup := by
  have hpe := parse_success_eq_buildPeople ids text people h
  have hid : ∀ i (hi : i < people.length), people[i].id = ids i := by
    intro i hi
    have hsome : people[i]? = some people[i] := List.getElem?_eq_getElem hi
    have := buildPeople_getElem ids 0 i (nonEmptyLines text) people[i]
      (by rw [← hpe]; exact hsome)
    simpa using this.1
  have hinj := List.inj_on_of_nodup_map hids
  show (people.map Person.id).Pairwise (· ≠ ·)
  rw [List.pairwise_iff_getElem]
  intro i j hi hj hij
  simp only [List.length_map] at hi hj
  rw [List.getElem_map, List.getElem_map, hid i hi, hid j hj]
  intro he
  have heq := hinj (List.mem_range.mpr hi) (List.mem_range.mpr hj) he
  omega

/-- Witness for the amended C8 at the demo input. -/
theorem parse_ids_distinct_witness :
    (parsePeopleText idsDemo demoTextOk = ParseResult.success demoPeople ∧
      ((List.range demoPeople.length).map idsDemo).Nodup) ∧
    (demoPeople.map Person.id).Nodup :=
  ⟨⟨by decide, by decide⟩,
    parse_ids_distinct idsDemo demoTextOk demoPeople (by decide) (by decide)⟩

end PeopleMemorizer

namespace PeopleMemorizer

-- sanity examples (spec §8 sample inputs, transliterated to ASCII)
example :
    parsePeopleText (fun k => toString k) ("a\nb c\nd e").data =
      .success [{ id := "0", name := ['a'],
                  parents := [['b'], ['c']], siblings := [['d'], ['e']] }] := by
  decide

example :
    parsePeopleText (fun k => toString k) ("a\nb c\nd e\n\nf").data =
      .failure { message := remainderOneMessage 4, remainderLines := [['f']] } := by
  decide

example :
    parsePeopleText (fun k => toString k) ("  \n \n").data =
      .failure { message := emptyInputMessage, remainderLines := [] } := by
  decide

end PeopleMemorizer
